import Mathlib

/-!
Verification of the NordVPN indicator's parsing and command-formatting core
(files `nordvpn.py` and `nordvpn_indicator.py`).

Text is modelled as `String` / `List Char`; the Python regular expressions used
by the source are interpreted over ASCII character classes (`\s`, `\w`), which
covers every string the program actually handles.
-/

/-- ASCII reading of Python's regex class `\s` and of the character set stripped
by `str.strip()`. -/
def isPySpace (c : Char) : Bool :=
  c = ' ' || c = '\t' || c = '\n' || c = '\r' || c = '\x0b' || c = '\x0c'

/-- ASCII reading of Python's regex class `\w`: alphanumerics and underscore. -/
def isWordChar (c : Char) : Bool :=
  c.isAlphanum || c = '_'

/-- Python's `str.strip()`: remove leading and trailing whitespace. -/
def pyStrip (l : List Char) : List Char :=
  ((l.dropWhile isPySpace).reverse.dropWhile isPySpace).reverse

/-- `pyStrip` lifted to `String`. -/
def pyStripStr (s : String) : String :=
  (pyStrip s.data).asString

/-- Python's `str.lower()` (ASCII). -/
def pyLower (l : List Char) : List Char :=
  l.map Char.toLower

/-- If `p` is a prefix of `s`, return the remainder of `s`, else `none`. -/
def dropPrefixChars : List Char → List Char → Option (List Char)
  | [], s => some s
  | _ :: _, [] => none
  | p :: ps, c :: cs => if p = c then dropPrefixChars ps cs else none

/-- One attempt of the regex `label:\s(.*)` at the current position: the text
must start with `label` followed by a colon and one whitespace character; the
captured group is everything up to the end of the line (Python `.` does not
match a newline). -/
def tryMatchParam (label : List Char) (s : List Char) : Option (List Char) :=
  match dropPrefixChars (label ++ [':']) s with
  | none => none
  | some [] => none
  | some (w :: rest) => if isPySpace w then some (rest.takeWhile (fun c => c ≠ '\n')) else none

/-- `re.search(r"label:\s(.*)", s)`: the captured group of the leftmost match. -/
def searchParam (label : List Char) : List Char → Option (List Char)
  | [] => none
  | c :: cs =>
    match tryMatchParam label (c :: cs) with
    | some v => some v
    | none => searchParam label cs

/-- `NordVPNStatus._parse_param` without the `throw` flag: the stripped captured
group, or `none` when the regex does not match (the `throw=True` call site turns
`none` into an exception, the default call site into `"Unknown"`). -/
def parse_param (label source : String) : Option String :=
  (searchParam label.data source.data).map (fun g => (pyStrip g).asString)

/-- `_parse_param` as called with `throw=False`: `"Unknown"` when not found. -/
def parse_param_or_unknown (label source : String) : String :=
  (parse_param label source).getD "Unknown"

/-- The `ConnectionStatus` enumeration of `nordvpn.py`. -/
inductive ConnectionStatus where
  | CONNECTED
  | DISCONNECTED
  | WAITING
  deriving DecidableEq, Repr

/-- `ConnectionStatus(value)`: Python enum lookup by value
(`'Connected' / 'Disconnected' / 'Connecting'`); any other value raises. -/
def ConnectionStatus.ofValue : String → Option ConnectionStatus
  | "Connected" => some .CONNECTED
  | "Disconnected" => some .DISCONNECTED
  | "Connecting" => some .WAITING
  | _ => none

/-- Code-point lexicographic strict comparison of character lists: CPython's
string `<`, spelled out on code points so that it evaluates in the kernel. -/
def lexLt : List Char → List Char → Bool
  | [], [] => false
  | [], _ :: _ => true
  | _ :: _, [] => false
  | a :: as, b :: bs =>
    if a.toNat < b.toNat then true
    else if b.toNat < a.toNat then false
    else lexLt as bs

/-- The non-strict order Python's `sorted` and `list.sort()` arrange strings
by: `a` may precede `b` when `b < a` fails. -/
def pyLe (a b : String) : Prop := lexLt b.data a.data = false

instance (a b : String) : Decidable (pyLe a b) :=
  inferInstanceAs (Decidable (lexLt b.data a.data = false))

theorem lexLt_asymm : ∀ a b, lexLt a b = true → lexLt b a = true → False
  | [], [], h, _ => by simp [lexLt] at h
  | [], _ :: _, _, h2 => by simp [lexLt] at h2
  | _ :: _, [], h, _ => by simp [lexLt] at h
  | a :: as, b :: bs, h1, h2 => by
    simp only [lexLt] at h1 h2
    by_cases hab : a.toNat < b.toNat
    · have hba : ¬ b.toNat < a.toNat := by omega
      rw [if_neg hba, if_pos hab] at h2
      exact Bool.noConfusion h2
    · by_cases hba : b.toNat < a.toNat
      · rw [if_neg hab, if_pos hba] at h1
        exact Bool.noConfusion h1
      · rw [if_neg hab, if_neg hba] at h1
        rw [if_neg hba, if_neg hab] at h2
        exact lexLt_asymm as bs h1 h2

theorem lexLt_trans : ∀ a b c, lexLt a b = true → lexLt b c = true → lexLt a c = true
  | [], [], _, h1, _ => by simp [lexLt] at h1
  | [], _ :: _, [], _, h2 => by simp [lexLt] at h2
  | [], _ :: _, _ :: _, _, _ => by simp [lexLt]
  | _ :: _, [], _, h1, _ => by simp [lexLt] at h1
  | _ :: _, _ :: _, [], _, h2 => by simp [lexLt] at h2
  | a :: as, b :: bs, c :: cs, h1, h2 => by
    simp only [lexLt] at h1 h2 ⊢
    by_cases hab : a.toNat < b.toNat
    · by_cases hbc : b.toNat < c.toNat
      · rw [if_pos (by omega : a.toNat < c.toNat)]
      · by_cases hcb : c.toNat < b.toNat
        · rw [if_neg hbc, if_pos hcb] at h2
          exact Bool.noConfusion h2
        · rw [if_pos (by omega : a.toNat < c.toNat)]
    · by_cases hba : b.toNat < a.toNat
      · rw [if_neg hab, if_pos hba] at h1
        exact Bool.noConfusion h1
      · rw [if_neg hab, if_neg hba] at h1
        by_cases hbc : b.toNat < c.toNat
        · rw [if_pos (by omega : a.toNat < c.toNat)]
        · by_cases hcb : c.toNat < b.toNat
          · rw [if_neg hbc, if_pos hcb] at h2
            exact Bool.noConfusion h2
          · rw [if_neg hbc, if_neg hcb] at h2
            rw [if_neg (by omega : ¬ a.toNat < c.toNat),
              if_neg (by omega : ¬ c.toNat < a.toNat)]
            exact lexLt_trans as bs cs h1 h2

theorem lexLt_connex : ∀ a b, lexLt a b = false → lexLt b a = false → a = b
  | [], [], _, _ => rfl
  | [], _ :: _, h1, _ => by simp [lexLt] at h1
  | _ :: _, [], _, h2 => by simp [lexLt] at h2
  | a :: as, b :: bs, h1, h2 => by
    simp only [lexLt] at h1 h2
    by_cases hab : a.toNat < b.toNat
    · rw [if_pos hab] at h1
      exact Bool.noConfusion h1
    · by_cases hba : b.toNat < a.toNat
      · rw [if_pos hba] at h2
        exact Bool.noConfusion h2
      · rw [if_neg hab, if_neg hba] at h1
        rw [if_neg hba, if_neg hab] at h2
        have heq : a = b := by
          have hn : a.toNat = b.toNat := by omega
          have := congrArg Char.ofNat hn
          rwa [Char.ofNat_toNat, Char.ofNat_toNat] at this
        rw [heq, lexLt_connex as bs h1 h2]

instance : IsTotal String pyLe where
  total a b := by
    by_cases hab : lexLt a.data b.data = true
    · left
      cases hba : lexLt b.data a.data with
      | false => exact hba
      | true => exact absurd (lexLt_asymm _ _ hab hba) not_false
    · right
      show lexLt a.data b.data = false
      cases h : lexLt a.data b.data with
      | false => rfl
      | true => exact absurd h hab

instance : IsTrans String pyLe where
  trans a b c hab hbc := by
    have hab2 : lexLt b.data a.data = false := hab
    have hbc2 : lexLt c.data b.data = false := hbc
    show lexLt c.data a.data = false
    cases hca : lexLt c.data a.data with
    | false => rfl
    | true =>
      exfalso
      cases hcb : lexLt b.data c.data with
      | true =>
        have hba := lexLt_trans _ _ _ hcb hca
        rw [hab2] at hba
        exact Bool.noConfusion hba
      | false =>
        have heq := lexLt_connex _ _ hcb hbc2
        rw [heq, hca] at hab2
        exact Bool.noConfusion hab2

/-- Adding to the Python `set` of warnings, modelled as a duplicate-free list:
`set.add` is a no-op on an element already present. -/
def warningsAdd (message : String) (ws : List String) : List String :=
  if message ∈ ws then ws else ws ++ [message]

/-- `set.clear()`. -/
def warningsClear (_ws : List String) : List String := []

/-- The mutable state of a `NordVPNStatus` object: the raw display text, the
eight parsed fields of `self.data` (`Param.STATUS` holding a
`ConnectionStatus`), and the warning set. -/
structure NordVPNStatus where
  raw_status : String
  status : ConnectionStatus
  current_server : String
  country : String
  city : String
  ip : String
  protocol : String
  transfer : String
  uptime : String
  warnings : List String
  deriving DecidableEq, Repr

/-- `NordVPNStatus.__init__`. -/
def NordVPNStatus.init : NordVPNStatus where
  raw_status := "Unknown"
  status := .WAITING
  current_server := "Unknown"
  country := "Unknown"
  city := "Unknown"
  ip := "Unknown"
  protocol := "Unknown"
  transfer := "Unknown"
  uptime := "Unknown"
  warnings := []

/-- `NordVPNStatus.add_warning`. -/
def NordVPNStatus.add_warning (message : String) (st : NordVPNStatus) : NordVPNStatus :=
  { st with warnings := warningsAdd message st.warnings }

/-- `NordVPNStatus.clear_warnings`. -/
def NordVPNStatus.clear_warnings (st : NordVPNStatus) : NordVPNStatus :=
  { st with warnings := [] }

/-- `NordVPNStatus.update`.  The Python loop iterates the `Param` enum in
declaration order with `STATUS` first; the only statements that can raise are
the `throw=True` parse of `Status` and the `ConnectionStatus(...)` conversion,
so on failure no other field has been assigned yet.  `sorted(self.warnings)`
sorts the set ascending (modelled by insertion sort on the duplicate-free
list), and `'\n\r'.join` interleaves the separator. -/
def NordVPNStatus.update (st : NordVPNStatus) (raw_status : String) : NordVPNStatus :=
  if st.warnings.length > 0 then
    { st with
        raw_status := String.intercalate "\n\r"
          (raw_status :: List.insertionSort pyLe st.warnings),
        status := .WAITING }
  else
    match parse_param "Status" raw_status with
    | none => { st with raw_status := raw_status, status := .WAITING }
    | some s =>
      match ConnectionStatus.ofValue s with
      | none => { st with raw_status := raw_status, status := .WAITING }
      | some cs =>
        { st with
            raw_status := raw_status,
            status := cs,
            current_server := parse_param_or_unknown "Current server" raw_status,
            country := parse_param_or_unknown "Country" raw_status,
            city := parse_param_or_unknown "City" raw_status,
            ip := parse_param_or_unknown "Your new IP" raw_status,
            protocol := parse_param_or_unknown "Current protocol" raw_status,
            transfer := parse_param_or_unknown "Transfer" raw_status,
            uptime := parse_param_or_unknown "Uptime" raw_status }

/-- Substring containment, Python's `needle in haystack`. -/
def containsSubstr (needle : List Char) : List Char → Bool
  | [] => needle.isEmpty
  | c :: cs => needle.isPrefixOf (c :: cs) || containsSubstr needle cs

/-- `containsSubstr` lifted to `String`. -/
def strContains (needle hay : String) : Bool :=
  containsSubstr needle.data hay.data

/-- `NordVPN.UPDATE_WARNING`: the phrase searched for in command output. -/
def UPDATE_WARNING : String :=
  "A new version of NordVPN is available! Please update the application."

/-- `NordVPN.LOGIN_WARNING`: the phrase searched for in command output. -/
def LOGIN_WARNING : String :=
  "Please enter your login details."

/-- The message registered by `_output_has_warnings` for the update phrase. -/
def updateMsg : String := "Warning: new version of the nordvpn client available"

/-- The message registered by `_output_has_warnings` for the login phrase. -/
def loginMsg : String := "Warning: Please login to NordVPN"

/-- `NordVPN._output_has_warnings` as a pure function: the warning message it
registers, or `none` when it returns `False` without registering anything.
The update phrase is checked first; the login branch is an `elif`. -/
def outputWarningMessage (output : String) : Option String :=
  if strContains UPDATE_WARNING output then some updateMsg
  else if strContains LOGIN_WARNING output then some loginMsg
  else none

/-- The shared body of `NordVPN.connect`, `connect_to_country`,
`connect_to_group`, `connect_to_city` and `disconnect` in `nordvpn.py`,
as a function of the command output: register the detected warning, or clear
all warnings when neither phrase occurs. -/
def connectStep (st : NordVPNStatus) (output : String) : NordVPNStatus :=
  match outputWarningMessage output with
  | some m => st.add_warning m
  | none => st.clear_warnings

/-- `NordVPN._status_check` as a function of the command output:
`self.status.update(output.strip())`. -/
def statusCheckStep (st : NordVPNStatus) (output : String) : NordVPNStatus :=
  st.update (pyStripStr output)

/-- One public operation of the `NordVPN` class in `nordvpn.py`, tagged with
the output the external command produced. -/
inductive Op where
  | connect (output : String)
  | connect_to_country (output : String)
  | connect_to_group (output : String)
  | connect_to_city (output : String)
  | disconnect (output : String)
  | get_status (output : String)

/-- Effect of one public operation on the `NordVPNStatus` state. -/
def applyOp (st : NordVPNStatus) : Op → NordVPNStatus
  | .connect output => connectStep st output
  | .connect_to_country output => connectStep st output
  | .connect_to_group output => connectStep st output
  | .connect_to_city output => connectStep st output
  | .disconnect output => connectStep st output
  | .get_status output => statusCheckStep st output

/-- Result of launching the external command: `Popen` raised (program not
found), or the process ran producing captured stdout and an exit code. -/
inductive ProcResult where
  | failure
  | output (stdout : String) (exitCode : Nat)

/-- `NordVPN._run_command`: no exception handling, so a launch failure
propagates (modelled as `Except.error`); otherwise the decoded stdout is
returned stripped — the exit code is never inspected. -/
def run_command : ProcResult → Except Unit String
  | .failure => .error ()
  | .output stdout _ => .ok (pyStripStr stdout)

/-- Fueled scanner for maximal runs of `\w` characters; one unit of fuel is
spent per character examined or skipped, so any fuel of at least the string's
length yields the full list of runs (`wordRunsFuel_le`). -/
def wordRunsFuel : Nat → List Char → List (List Char)
  | _, [] => []
  | 0, _ :: _ => []
  | n + 1, c :: cs =>
    if isWordChar c then
      (c :: cs.takeWhile isWordChar) :: wordRunsFuel n (cs.dropWhile isWordChar)
    else
      wordRunsFuel n cs

/-- Maximal runs of `\w` characters in a string, in order: the matches of
`re.findall(r'(\w{2,})+', raw)` are exactly the runs of length at least two
(the greedy `\w{2,}` consumes a whole run, and the outer `+` cannot continue
past a non-word character), with the capturing group returning the whole run. -/
def wordRuns (s : List Char) : List (List Char) :=
  wordRunsFuel s.length s

/-- `NordVPN._parse_words`: the regex captures (runs of word characters of
length at least two) with every underscore replaced by a space. -/
def parse_words (raw : String) : List String :=
  ((wordRuns raw.data).filter (fun r => 2 ≤ r.length)).map
    (fun r => (r.map (fun c => if c = '_' then ' ' else c)).asString)

/-- The pure part shared by `NordVPN.get_countries`, `get_groups` and
`get_cities`: `_parse_words` then an in-place ascending `list.sort()`. -/
def countries_of_output (raw : String) : List String :=
  List.insertionSort pyLe (parse_words raw)

/-- `NordVPN.get_countries` including the runner: the `raw_countries is None`
check can never fire because `_run_command` never returns `None`, so a launch
failure propagates as the exception it raised. -/
def get_countries (r : ProcResult) : Except Unit (List String) :=
  match run_command r with
  | .error e => .error e
  | .ok raw => .ok (countries_of_output raw)

/-- The `NordVPN.Settings` enumeration of `nordvpn_indicator.py`. -/
inductive Settings where
  | PROTOCOL
  | KILL_SWITCH
  | CYBER_SEC
  | OBFUSCATE
  | AUTO_CONNECT
  | DNS
  deriving DecidableEq, Repr

/-- The `value` of each `Settings` member: the display name. -/
def Settings.displayName : Settings → String
  | .PROTOCOL => "Protocol"
  | .KILL_SWITCH => "Kill Switch"
  | .CYBER_SEC => "CyberSec"
  | .OBFUSCATE => "Obfuscate"
  | .AUTO_CONNECT => "Auto connect"
  | .DNS => "DNS"

/-- Python `str.replace(old, '')` for a single-character `old`: every
occurrence of the character is removed. -/
def removeChar (x : Char) (l : List Char) : List Char :=
  l.filter (fun c => c ≠ x)

/-- `format_setting_name` in `nordvpn.py`:
`setting_name.replace(' ', '').replace('-', '').lower()`. -/
def format_setting_name (setting_name : String) : String :=
  (pyLower (removeChar '-' (removeChar ' ' setting_name.data))).asString

/-- A value passed for a setting: booleans for the on/off switches, strings
for the AutoConnect mode. -/
inductive SettingValue where
  | bool (b : Bool)
  | str (s : String)
  deriving DecidableEq, Repr

/-- Modelled from the spec: the settings-window revision that turns an
AutoConnect selection into a `nordvpn set` value token is not under `src/`
(the revision there maps every value through `str(value).lower()`, which for
Python booleans yields `true`/`false`).  Per the spec, AutoConnect's string
values coerce as `"Off"` to the literal `false`, `"Automatic"` to the literal
`true`, and any other string (a country or city name) to `on <lowercased
name>`; every boolean renders lower-case. -/
def coerce_set_value : Settings → SettingValue → String
  | .AUTO_CONNECT, .str v =>
    if v = "Off" then "false"
    else if v = "Automatic" then "true"
    else "on " ++ (pyLower v.data).asString
  | _, .bool b => if b then "true" else "false"
  | _, .str v => (pyLower v.data).asString

/-- `format_set_command` of the spec: the argument text handed to
`nordvpn set`, built from `format_setting_name` (source) and the value
coercion above. -/
def format_set_command (setting : Settings) (value : SettingValue) : String :=
  format_setting_name setting.displayName ++ " " ++ coerce_set_value setting value

/-- The `VPN_STATUS` enumeration of `nordvpn_indicator.py`. -/
inductive VPN_STATUS where
  | CONNECTED
  | DISCONNECTED
  | WAITING
  deriving DecidableEq, Repr

/-- The literal part of the pattern `'You are now connected to .*'` used by the
indicator revision's `NordVPN.connect` — note the trailing space. -/
def CONNECT_PATTERN : List Char := "You are now connected to ".data

/-- `re.search(pat ++ ".*", s).group(0)`: the whole text matched at the
leftmost occurrence of the literal `pat`, running greedily to end of line. -/
def searchToEol (pat : List Char) : List Char → Option (List Char)
  | [] => none
  | c :: cs =>
    match dropPrefixChars pat (c :: cs) with
    | some rest => some (pat ++ rest.takeWhile (fun ch => ch ≠ '\n'))
    | none => searchToEol pat cs

/-- `NordVPN.connect` of `nordvpn_indicator.py` as a function of the command
output: state starts at `WAITING`, and on a match of
`'You are now connected to .*'` the local `output` is replaced by the matched
text and the state becomes `CONNECTED`.  The pair returned is the final state
and the final value of `output`. -/
def indicatorConnect (output : Option String) : VPN_STATUS × Option String :=
  match output with
  | none => (.WAITING, none)
  | some o =>
    match searchToEol CONNECT_PATTERN o.data with
    | some m => (.CONNECTED, some m.asString)
    | none => (.WAITING, some o)

/-- Index of the first occurrence of `pat` (as a contiguous sublist) in `s`,
used to state the spec's "first occurrence of the label" reading. -/
def firstOccIdx (pat : List Char) : List Char → Option Nat
  | [] => none
  | c :: cs =>
    if pat.isPrefixOf (c :: cs) then some 0
    else (firstOccIdx pat cs).map (fun n => n + 1)

/-- Spec-side reading of a field extraction: the text following the first
occurrence of `label ++ ":"` up to end of line, trimmed of surrounding
whitespace.  It is defined exactly when the label occurs with a well-formed
value, i.e. the colon of the first occurrence is followed by whitespace that
does not end the line. -/
def specFieldValue (label raw : String) : Option String :=
  match firstOccIdx (label.data ++ [':']) raw.data with
  | none => none
  | some i =>
    match raw.data.drop (i + label.data.length + 1) with
    | [] => none
    | w :: rest =>
      if isPySpace w = true ∧ w ≠ '\n' then
        some (pyStrip ((w :: rest).takeWhile (fun c => c ≠ '\n'))).asString
      else none

theorem dropPrefixChars_of_isPrefixOf :
    ∀ (p s : List Char), p.isPrefixOf s = true → dropPrefixChars p s = some (s.drop p.length)
  | [], s, _ => by simp [dropPrefixChars]
  | _ :: _, [], h => by simp [List.isPrefixOf] at h
  | p :: ps, c :: cs, h => by
    simp only [List.isPrefixOf, Bool.and_eq_true, beq_iff_eq] at h
    obtain ⟨rfl, h2⟩ := h
    simpa [dropPrefixChars] using dropPrefixChars_of_isPrefixOf ps cs h2

theorem dropPrefixChars_of_not_isPrefixOf :
    ∀ (p s : List Char), p.isPrefixOf s = false → dropPrefixChars p s = none
  | [], s, h => by simp [List.isPrefixOf] at h
  | _ :: _, [], _ => by simp [dropPrefixChars]
  | p :: ps, c :: cs, h => by
    simp only [List.isPrefixOf, Bool.and_eq_false_iff, beq_eq_false_iff_ne] at h
    rcases h with h | h
    · simp [dropPrefixChars, h]
    · by_cases hpc : p = c
      · simpa [dropPrefixChars, hpc] using dropPrefixChars_of_not_isPrefixOf ps cs h
      · simp [dropPrefixChars, hpc]

theorem tryMatchParam_of_not_isPrefixOf (label : List Char) (s : List Char)
    (h : (label ++ [':']).isPrefixOf s = false) : tryMatchParam label s = none := by
  simp [tryMatchParam, dropPrefixChars_of_not_isPrefixOf _ _ h]

/-- The code's regex search agrees with the spec's "first occurrence" reading
whenever the first occurrence of `label ++ ":"` is followed by a whitespace
character. -/
theorem searchParam_of_firstOccIdx (label : List Char) :
    ∀ (s : List Char) (i : Nat) (w : Char) (rest : List Char),
      firstOccIdx (label ++ [':']) s = some i →
      s.drop (i + (label ++ [':']).length) = w :: rest →
      isPySpace w = true →
      searchParam label s = some (rest.takeWhile (fun c => c ≠ '\n'))
  | [], i, w, rest, h, _, _ => by simp [firstOccIdx] at h
  | c :: cs, i, w, rest, h, hdrop, hw => by
    by_cases hp : (label ++ [':']).isPrefixOf (c :: cs) = true
    · have hi : i = 0 := by
        simp [firstOccIdx, hp] at h
        omega
      subst hi
      have hdp := dropPrefixChars_of_isPrefixOf _ _ hp
      rw [Nat.zero_add] at hdrop
      rw [hdrop] at hdp
      simp [searchParam, tryMatchParam, hdp, hw]
    · have hp' : (label ++ [':']).isPrefixOf (c :: cs) = false := by
        cases hb : (label ++ [':']).isPrefixOf (c :: cs) with
        | false => rfl
        | true => exact absurd hb hp
      have h' : (firstOccIdx (label ++ [':']) cs).map (fun n => n + 1) = some i := by
        simpa [firstOccIdx, hp'] using h
      obtain ⟨j, hj, rfl⟩ : ∃ j, firstOccIdx (label ++ [':']) cs = some j ∧ j + 1 = i := by
        cases hfo : firstOccIdx (label ++ [':']) cs with
        | none => rw [hfo] at h'; simp at h'
        | some j => rw [hfo] at h'; simp at h'; exact ⟨j, rfl, h'⟩
      have hdrop' : cs.drop (j + (label ++ [':']).length) = w :: rest := by
        have : (c :: cs).drop (j + 1 + (label ++ [':']).length)
            = cs.drop (j + (label ++ [':']).length) := by
          have harith : j + 1 + (label ++ [':']).length
              = (j + (label ++ [':']).length) + 1 := by omega
          rw [harith, List.drop_succ_cons]
        rw [this] at hdrop
        exact hdrop
      have ih := searchParam_of_firstOccIdx label cs j w rest hj hdrop' hw
      simp [searchParam, tryMatchParam_of_not_isPrefixOf _ _ hp', ih]

theorem pyStrip_cons_of_space (w : Char) (l : List Char) (hw : isPySpace w = true) :
    pyStrip (w :: l) = pyStrip l := by
  simp [pyStrip, List.dropWhile_cons, hw]

/-- The code's `_parse_param` returns exactly the spec-side first-occurrence
value whenever the latter is defined. -/
theorem parse_param_of_specFieldValue (label raw v : String)
    (h : specFieldValue label raw = some v) : parse_param label raw = some v := by
  unfold specFieldValue at h
  cases hfo : firstOccIdx (label.data ++ [':']) raw.data with
  | none => rw [hfo] at h; simp at h
  | some i =>
    rw [hfo] at h
    dsimp only at h
    cases hdrop : raw.data.drop (i + label.data.length + 1) with
    | nil => rw [hdrop] at h; simp at h
    | cons w rest =>
      rw [hdrop] at h
      dsimp only at h
      by_cases hwf : isPySpace w = true ∧ w ≠ '\n'
      · rw [if_pos hwf] at h
        have hv : (pyStrip ((w :: rest).takeWhile (fun c => c ≠ '\n'))).asString = v := by
          simpa using h
        have hlen : i + label.data.length + 1 = i + (label.data ++ [':']).length := by
          rw [List.length_append]
          simp [Nat.add_assoc]
        rw [hlen] at hdrop
        have hsearch := searchParam_of_firstOccIdx label.data raw.data i w rest hfo hdrop hwf.1
        have htake : (w :: rest).takeWhile (fun c => c ≠ '\n')
            = w :: rest.takeWhile (fun c => c ≠ '\n') := by
          simp [List.takeWhile_cons, hwf.2]
        rw [htake, pyStrip_cons_of_space w _ hwf.1] at hv
        simp only [parse_param, hsearch, Option.map]
        simpa using hv
      · rw [if_neg hwf] at h
        simp at h

/-- A well-formed `nordvpn status` output used as the concrete witness input. -/
def sampleStatusRaw : String :=
  "Status: Connected\nCurrent server: fr123.nordvpn.com\nCountry: France\nCity: Paris\nYour new IP: 1.2.3.4\nCurrent protocol: UDP\nTransfer: 1.2 MiB received, 0.5 MiB sent\nUptime: 5 minutes"

/-- C1: for every status text in which all eight field labels occur with
well-formed values (`specFieldValue` is the spec's first-occurrence-to-end-of-
line-trimmed reading) and the warning set is empty, `NordVPNStatus.update`
stores each field's spec value, and stores the status field as the enumerated
`ConnectionStatus` matching the captured literal. -/
theorem c1_update_parses_all_fields
    (st : NordVPNStatus) (raw : String) (cs : ConnectionStatus)
    (vst vsrv vcountry vcity vip vproto vtr vup : String)
    (hw : st.warnings = [])
    (h1 : specFieldValue "Status" raw = some vst)
    (hcs : ConnectionStatus.ofValue vst = some cs)
    (h2 : specFieldValue "Current server" raw = some vsrv)
    (h3 : specFieldValue "Country" raw = some vcountry)
    (h4 : specFieldValue "City" raw = some vcity)
    (h5 : specFieldValue "Your new IP" raw = some vip)
    (h6 : specFieldValue "Current protocol" raw = some vproto)
    (h7 : specFieldValue "Transfer" raw = some vtr)
    (h8 : specFieldValue "Uptime" raw = some vup) :
    st.update raw = { st with
      raw_status := raw,
      status := cs,
      current_server := vsrv,
      country := vcountry,
      city := vcity,
      ip := vip,
      protocol := vproto,
      transfer := vtr,
      uptime := vup } := by
  have p1 := parse_param_of_specFieldValue _ _ _ h1
  have p2 := parse_param_of_specFieldValue _ _ _ h2
  have p3 := parse_param_of_specFieldValue _ _ _ h3
  have p4 := parse_param_of_specFieldValue _ _ _ h4
  have p5 := parse_param_of_specFieldValue _ _ _ h5
  have p6 := parse_param_of_specFieldValue _ _ _ h6
  have p7 := parse_param_of_specFieldValue _ _ _ h7
  have p8 := parse_param_of_specFieldValue _ _ _ h8
  simp [NordVPNStatus.update, hw, parse_param_or_unknown,
    p1, p2, p3, p4, p5, p6, p7, p8, hcs]

set_option maxRecDepth 100000 in
/-- Witness for C1 at a concrete well-formed status text. -/
theorem c1_witness :
    NordVPNStatus.init.update sampleStatusRaw = { NordVPNStatus.init with
      raw_status := sampleStatusRaw,
      status := .CONNECTED,
      current_server := "fr123.nordvpn.com",
      country := "France",
      city := "Paris",
      ip := "1.2.3.4",
      protocol := "UDP",
      transfer := "1.2 MiB received, 0.5 MiB sent",
      uptime := "5 minutes" } :=
  c1_update_parses_all_fields NordVPNStatus.init sampleStatusRaw .CONNECTED
    "Connected" "fr123.nordvpn.com" "France" "Paris" "1.2.3.4" "UDP"
    "1.2 MiB received, 0.5 MiB sent" "5 minutes"
    rfl rfl rfl rfl rfl rfl rfl rfl rfl rfl

/-- C2: with an empty warning set, if the `Status` regex does not match or its
captured value is not one of the three enumeration literals, `update` sets the
status field to `WAITING` and leaves every other snapshot field (and the
warning set) at its previous value. -/
theorem c2_update_aborts_on_bad_status
    (st : NordVPNStatus) (raw : String)
    (hw : st.warnings = [])
    (habs : parse_param "Status" raw = none ∨
      ∃ v, parse_param "Status" raw = some v ∧ ConnectionStatus.ofValue v = none) :
    (st.update raw).status = .WAITING ∧
    (st.update raw).current_server = st.current_server ∧
    (st.update raw).country = st.country ∧
    (st.update raw).city = st.city ∧
    (st.update raw).ip = st.ip ∧
    (st.update raw).protocol = st.protocol ∧
    (st.update raw).transfer = st.transfer ∧
    (st.update raw).uptime = st.uptime ∧
    (st.update raw).warnings = st.warnings := by
  rcases habs with h | ⟨v, hv, hcs⟩ <;>
    simp [NordVPNStatus.update, hw, *]

/-- Witness for C2: a present `Status` label whose value is not a literal. -/
theorem c2_witness :
    (NordVPNStatus.init.update "Status: Garbage").status = ConnectionStatus.WAITING ∧
    (NordVPNStatus.init.update "Status: Garbage").current_server
      = NordVPNStatus.init.current_server ∧
    (NordVPNStatus.init.update "Status: Garbage").country = NordVPNStatus.init.country ∧
    (NordVPNStatus.init.update "Status: Garbage").city = NordVPNStatus.init.city ∧
    (NordVPNStatus.init.update "Status: Garbage").ip = NordVPNStatus.init.ip ∧
    (NordVPNStatus.init.update "Status: Garbage").protocol = NordVPNStatus.init.protocol ∧
    (NordVPNStatus.init.update "Status: Garbage").transfer = NordVPNStatus.init.transfer ∧
    (NordVPNStatus.init.update "Status: Garbage").uptime = NordVPNStatus.init.uptime ∧
    (NordVPNStatus.init.update "Status: Garbage").warnings = NordVPNStatus.init.warnings :=
  c2_update_aborts_on_bad_status NordVPNStatus.init "Status: Garbage" rfl
    (Or.inr ⟨"Garbage", rfl, rfl⟩)

/-- C3: when the warning set is non-empty, `update` performs no field
extraction: the status field becomes `WAITING`, every data field keeps its
previous value, and the displayed raw text is the original text joined with
the warning messages in sorted order, each distinct message exactly once. -/
theorem c3_update_with_warnings
    (st : NordVPNStatus) (raw : String)
    (hne : st.warnings ≠ []) (hnd : st.warnings.Nodup) :
    (st.update raw).status = .WAITING ∧
    (∃ ws, (st.update raw).raw_status = String.intercalate "\n\r" (raw :: ws) ∧
      ws.Perm st.warnings ∧ ws.Sorted pyLe ∧
      ∀ m ∈ st.warnings, ws.count m = 1) ∧
    (st.update raw).current_server = st.current_server ∧
    (st.update raw).country = st.country ∧
    (st.update raw).city = st.city ∧
    (st.update raw).ip = st.ip ∧
    (st.update raw).protocol = st.protocol ∧
    (st.update raw).transfer = st.transfer ∧
    (st.update raw).uptime = st.uptime ∧
    (st.update raw).warnings = st.warnings := by
  have hlen : st.warnings.length > 0 := List.length_pos.mpr hne
  have hp := List.perm_insertionSort pyLe st.warnings
  have hnd2 : (List.insertionSort pyLe st.warnings).Nodup :=
    hp.nodup_iff.mpr hnd
  unfold NordVPNStatus.update
  rw [if_pos hlen]
  refine ⟨rfl, ⟨List.insertionSort pyLe st.warnings, rfl, hp,
    List.sorted_insertionSort _ _, ?_⟩, rfl, rfl, rfl, rfl, rfl, rfl, rfl, rfl⟩
  intro m hm
  exact List.count_eq_one_of_mem hnd2 (hp.symm.subset hm)

/-- Witness for C3 with two unsorted distinct warnings. -/
theorem c3_witness :
    (({ NordVPNStatus.init with warnings := ["b", "a"] } : NordVPNStatus).update "x").status
      = ConnectionStatus.WAITING ∧
    (∃ ws,
      (({ NordVPNStatus.init with warnings := ["b", "a"] } : NordVPNStatus).update "x").raw_status
        = String.intercalate "\n\r" ("x" :: ws) ∧
      ws.Perm ["b", "a"] ∧ ws.Sorted pyLe ∧
      ∀ m ∈ (["b", "a"] : List String), ws.count m = 1) ∧
    (({ NordVPNStatus.init with warnings := ["b", "a"] } : NordVPNStatus).update "x").current_server
      = "Unknown" ∧
    (({ NordVPNStatus.init with warnings := ["b", "a"] } : NordVPNStatus).update "x").warnings
      = ["b", "a"] := by
  have h := c3_update_with_warnings { NordVPNStatus.init with warnings := ["b", "a"] } "x"
    (by decide) (by decide)
  exact ⟨h.1, h.2.1, h.2.2.1, h.2.2.2.2.2.2.2.2.2⟩

theorem mem_warningsAdd (m x : String) (ws : List String) :
    x ∈ warningsAdd m ws ↔ x ∈ ws ∨ x = m := by
  unfold warningsAdd
  by_cases hm : m ∈ ws
  · rw [if_pos hm]
    constructor
    · exact Or.inl
    · rintro (h | rfl)
      · exact h
      · exact hm
  · rw [if_neg hm]
    simp

theorem nodup_warningsAdd (m : String) (ws : List String) (h : ws.Nodup) :
    (warningsAdd m ws).Nodup := by
  unfold warningsAdd
  by_cases hm : m ∈ ws
  · rw [if_pos hm]; exact h
  · rw [if_neg hm]
    simp [List.nodup_append, h, hm]

/-- A sequence of `add_warning` calls folded over the warning set. -/
def warningsAddAll (msgs : List String) (ws : List String) : List String :=
  msgs.foldl (fun acc m => warningsAdd m acc) ws

theorem mem_warningsAddAll :
    ∀ (msgs ws : List String) (x : String),
      x ∈ warningsAddAll msgs ws ↔ x ∈ ws ∨ x ∈ msgs
  | [], ws, x => by simp [warningsAddAll]
  | m :: ms, ws, x => by
    have step : warningsAddAll (m :: ms) ws = warningsAddAll ms (warningsAdd m ws) := rfl
    rw [step, mem_warningsAddAll ms (warningsAdd m ws) x, mem_warningsAdd]
    simp [List.mem_cons]
    tauto

theorem nodup_warningsAddAll :
    ∀ (msgs ws : List String), ws.Nodup → (warningsAddAll msgs ws).Nodup
  | [], _, h => h
  | m :: ms, ws, h =>
    nodup_warningsAddAll ms (warningsAdd m ws) (nodup_warningsAdd m ws h)

/-- C8: `add_warning` is idempotent under duplicate messages — after any
sequence of `add_warning` calls starting from the empty set, the warning set's
size equals the number of distinct messages added — and `clear_warnings`
empties the set unconditionally from any state. -/
theorem c8_warning_set_algebra :
    (∀ (m : String) (ws : List String), warningsAdd m (warningsAdd m ws) = warningsAdd m ws) ∧
    (∀ msgs : List String, (warningsAddAll msgs []).length = msgs.dedup.length) ∧
    (∀ ws : List String, warningsClear ws = []) := by
  refine ⟨?_, ?_, fun _ => rfl⟩
  · intro m ws
    have hm : m ∈ warningsAdd m ws := (mem_warningsAdd m m ws).mpr (Or.inr rfl)
    rw [show warningsAdd m (warningsAdd m ws)
        = if m ∈ warningsAdd m ws then warningsAdd m ws else warningsAdd m ws ++ [m] from rfl,
      if_pos hm]
  · intro msgs
    have hnd : (warningsAddAll msgs []).Nodup := nodup_warningsAddAll msgs [] (by simp)
    have hperm : (warningsAddAll msgs []).Perm msgs.dedup := by
      rw [List.perm_ext_iff_of_nodup hnd (List.nodup_dedup msgs)]
      intro a
      rw [mem_warningsAddAll]
      simp [List.mem_dedup]
    exact hperm.length_eq

/-- A command output containing both warning phrases at once. -/
def bothWarningsOutput : String := UPDATE_WARNING ++ " " ++ LOGIN_WARNING

set_option maxRecDepth 100000 in
/-- Counterexample to C4 as stated: this output contains the login phrase, yet
the call registers only the update warning (the login branch is an `elif`), so
no login warning enters the warning set. -/
theorem c4_counterexample :
    strContains LOGIN_WARNING bothWarningsOutput = true ∧
    (connectStep NordVPNStatus.init bothWarningsOutput).warnings = [updateMsg] ∧
    loginMsg ∉ (connectStep NordVPNStatus.init bothWarningsOutput).warnings := by
  refine ⟨by decide, by decide, by decide⟩

/-- C4 (amended): on a connect/disconnect call, if the output contains neither
warning phrase all accumulated warnings are cleared; if it contains the login
phrase and NOT the update phrase, the login warning is registered and no other
snapshot field — in particular the status — is modified by the call. -/
theorem c4_warning_clear_and_login (st : NordVPNStatus) (out : String) :
    (strContains UPDATE_WARNING out = false → strContains LOGIN_WARNING out = false →
      (connectStep st out).warnings = []) ∧
    (strContains UPDATE_WARNING out = false → strContains LOGIN_WARNING out = true →
      (connectStep st out).warnings = warningsAdd loginMsg st.warnings ∧
      (connectStep st out).status = st.status ∧
      (connectStep st out).raw_status = st.raw_status ∧
      (connectStep st out).current_server = st.current_server ∧
      (connectStep st out).country = st.country ∧
      (connectStep st out).city = st.city ∧
      (connectStep st out).ip = st.ip ∧
      (connectStep st out).protocol = st.protocol ∧
      (connectStep st out).transfer = st.transfer ∧
      (connectStep st out).uptime = st.uptime) := by
  constructor
  · intro h1 h2
    simp [connectStep, outputWarningMessage, h1, h2, NordVPNStatus.clear_warnings]
  · intro h1 h2
    simp [connectStep, outputWarningMessage, h1, h2, NordVPNStatus.add_warning]

set_option maxRecDepth 100000 in
/-- Witness for the amended C4: output that is exactly the login phrase. -/
theorem c4_witness :
    strContains UPDATE_WARNING LOGIN_WARNING = false ∧
    strContains LOGIN_WARNING LOGIN_WARNING = true ∧
    (connectStep NordVPNStatus.init LOGIN_WARNING).warnings
      = warningsAdd loginMsg NordVPNStatus.init.warnings ∧
    (connectStep NordVPNStatus.init LOGIN_WARNING).status = NordVPNStatus.init.status :=
  ⟨by decide, by decide,
    ((c4_warning_clear_and_login NordVPNStatus.init LOGIN_WARNING).2 (by decide) (by decide)).1,
    ((c4_warning_clear_and_login NordVPNStatus.init LOGIN_WARNING).2 (by decide) (by decide)).2.1⟩

theorem format_setting_name_removes_and_lowers (name : String) :
    format_setting_name name
      = ((name.data.filter (fun c => decide (¬(c = ' ' ∨ c = '-')))).map Char.toLower).asString := by
  unfold format_setting_name removeChar pyLower
  rw [List.filter_filter]
  congr 1
  apply congrArg
  apply List.filter_congr
  intro c _
  by_cases h1 : c = ' ' <;> by_cases h2 : c = '-' <;> simp [h1, h2]

/-- C5: the formatted `nordvpn set` argument text is the setting's display
name with all spaces and hyphens removed and lower-cased, followed by the
coerced value token: for AutoConnect, `"Off"` gives the literal `false`,
`"Automatic"` the literal `true`, any other string `on <lowercased name>`;
for every other (boolean) setting the boolean renders lower-case. -/
theorem c5_format_set_command (s : Settings) (b : Bool) (name : String)
    (hs : s ≠ Settings.AUTO_CONNECT) (h1 : name ≠ "Off") (h2 : name ≠ "Automatic") :
    format_set_command s (.bool b)
      = ((s.displayName.data.filter (fun c => decide (¬(c = ' ' ∨ c = '-')))).map
          Char.toLower).asString ++ " " ++ (if b then "true" else "false") ∧
    format_set_command .AUTO_CONNECT (.str "Off") = "autoconnect false" ∧
    format_set_command .AUTO_CONNECT (.str "Automatic") = "autoconnect true" ∧
    format_set_command .AUTO_CONNECT (.str name)
      = "autoconnect on " ++ (pyLower name.data).asString := by
  refine ⟨?_, rfl, rfl, ?_⟩
  · rw [← format_setting_name_removes_and_lowers]
    cases s <;> cases b <;> rfl
  · show format_setting_name (Settings.displayName .AUTO_CONNECT)
        ++ " " ++ coerce_set_value .AUTO_CONNECT (.str name) = _
    rw [show coerce_set_value .AUTO_CONNECT (.str name)
        = if name = "Off" then "false"
          else if name = "Automatic" then "true"
          else "on " ++ (pyLower name.data).asString from rfl,
      if_neg h1, if_neg h2]
    rfl

/-- Witness for C5: `KillSwitch`/`true` and `AutoConnect`/`"France"`. -/
theorem c5_witness :
    Settings.KILL_SWITCH ≠ Settings.AUTO_CONNECT ∧
    ("France" : String) ≠ "Off" ∧
    ("France" : String) ≠ "Automatic" ∧
    format_set_command .KILL_SWITCH (.bool true) = "killswitch true" ∧
    format_set_command .AUTO_CONNECT (.str "France") = "autoconnect on france" := by
  have h := c5_format_set_command .KILL_SWITCH true "France" (by decide) (by decide) (by decide)
  refine ⟨by decide, by decide, by decide, ?_, ?_⟩
  · rw [h.1]
    decide
  · rw [h.2.2.2]
    decide

set_option maxRecDepth 100000 in
/-- Counterexample to C6 as stated: an output that contains the literal
pattern "You are now connected to" but not followed by a space — the code's
regex `'You are now connected to .*'` requires the trailing space, so the
state is left `WAITING`, not set to `CONNECTED`. -/
theorem c6_counterexample :
    strContains "You are now connected to" "You are now connected to" = true ∧
    (indicatorConnect (some "You are now connected to")).1 = VPN_STATUS.WAITING ∧
    ¬(indicatorConnect (some "You are now connected to")).1 = VPN_STATUS.CONNECTED := by
  refine ⟨by decide, by decide, by decide⟩

theorem searchToEol_of_firstOccIdx (pat : List Char) :
    ∀ (s : List Char) (i : Nat),
      firstOccIdx pat s = some i →
      searchToEol pat s
        = some (pat ++ (s.drop (i + pat.length)).takeWhile (fun c => c ≠ '\n'))
  | [], i, h => by simp [firstOccIdx] at h
  | c :: cs, i, h => by
    by_cases hp : pat.isPrefixOf (c :: cs) = true
    · have hi : i = 0 := by
        simp [firstOccIdx, hp] at h
        omega
      subst hi
      have hdp := dropPrefixChars_of_isPrefixOf _ _ hp
      simp [searchToEol, hdp]
    · have hp' : pat.isPrefixOf (c :: cs) = false := by
        cases hb : pat.isPrefixOf (c :: cs) with
        | false => rfl
        | true => exact absurd hb hp
      have h' : (firstOccIdx pat cs).map (fun n => n + 1) = some i := by
        simpa [firstOccIdx, hp'] using h
      obtain ⟨j, hj, rfl⟩ : ∃ j, firstOccIdx pat cs = some j ∧ j + 1 = i := by
        cases hfo : firstOccIdx pat cs with
        | none => rw [hfo] at h'; simp at h'
        | some j => rw [hfo] at h'; simp at h'; exact ⟨j, rfl, h'⟩
      have ih := searchToEol_of_firstOccIdx pat cs j hj
      have hdropstep : (c :: cs).drop (j + 1 + pat.length) = cs.drop (j + pat.length) := by
        have harith : j + 1 + pat.length = (j + pat.length) + 1 := by omega
        rw [harith, List.drop_succ_cons]
      rw [hdropstep]
      simp [searchToEol, dropPrefixChars_of_not_isPrefixOf _ _ hp', ih]

/-- C6 (amended): for every connect call whose output contains the literal
`"You are now connected to "` — the phrase with its trailing space, as in the
code's pattern `'You are now connected to .*'` — the indicator revision's
`connect` sets the state to `CONNECTED` and exposes, as the final value of its
`output` variable, the match from the first occurrence of the phrase to the
end of that line. -/
theorem c6_indicator_connect (out : String) (i : Nat)
    (h : firstOccIdx CONNECT_PATTERN out.data = some i) :
    (indicatorConnect (some out)).1 = VPN_STATUS.CONNECTED ∧
    (indicatorConnect (some out)).2
      = some ((CONNECT_PATTERN
          ++ (out.data.drop (i + CONNECT_PATTERN.length)).takeWhile
              (fun c => c ≠ '\n')).asString) := by
  have hs := searchToEol_of_firstOccIdx CONNECT_PATTERN out.data i h
  simp [indicatorConnect, hs]

set_option maxRecDepth 100000 in
/-- Witness for the amended C6 at the spec's example output. -/
theorem c6_witness :
    firstOccIdx CONNECT_PATTERN ("You are now connected to France #123\nbye").data = some 0 ∧
    (indicatorConnect (some "You are now connected to France #123\nbye")).1
      = VPN_STATUS.CONNECTED ∧
    (indicatorConnect (some "You are now connected to France #123\nbye")).2
      = some "You are now connected to France #123" := by
  have h := c6_indicator_connect "You are now connected to France #123\nbye" 0 (by decide)
  refine ⟨by decide, h.1, ?_⟩
  rw [h.2]
  decide

/-- C7: the claim describes the intended failure handling (dead `is None`
checks in every caller defend against it), but the code ignores the exit code
entirely — non-zero exit still returns the stripped stdout as a success — and
a launch failure raises an exception that propagates uncaught through callers
such as `get_countries` instead of degrading to an empty list.  The last
conjunct confirms the true part: captured stdout is returned decoded and
trimmed. -/
theorem c7_run_command_divergence :
    run_command .failure = .error () ∧
    get_countries .failure = .error () ∧
    run_command (.output " France_Albania \n" 1) = .ok "France_Albania" ∧
    get_countries (.output "Albania France_Albania\n" 1)
      = .ok ["Albania", "France Albania"] := by
  refine ⟨rfl, rfl, rfl, rfl⟩

theorem update_warnings_unchanged (st : NordVPNStatus) (raw : String) :
    (st.update raw).warnings = st.warnings := by
  unfold NordVPNStatus.update
  split
  · rfl
  · split
    · rfl
    · split
      · rfl
      · rfl

/-- The state of the `NordVPN` object after a sequence of public operations,
starting from a fresh instance. -/
def reachState (ops : List Op) : NordVPNStatus :=
  ops.foldl applyOp NordVPNStatus.init

theorem connectStep_cases (st : NordVPNStatus) (out : String) :
    connectStep st out = st.add_warning updateMsg ∨
    connectStep st out = st.add_warning loginMsg ∨
    connectStep st out = st.clear_warnings := by
  unfold connectStep outputWarningMessage
  by_cases h1 : strContains UPDATE_WARNING out = true
  · rw [if_pos h1]
    exact Or.inl rfl
  · rw [if_neg h1]
    by_cases h2 : strContains LOGIN_WARNING out = true
    · rw [if_pos h2]
      exact Or.inr (Or.inl rfl)
    · rw [if_neg h2]
      exact Or.inr (Or.inr rfl)

theorem warnings_inv_applyOp (st : NordVPNStatus) (op : Op)
    (h : st.warnings.Nodup ∧ ∀ m ∈ st.warnings, m = updateMsg ∨ m = loginMsg) :
    (applyOp st op).warnings.Nodup ∧
      ∀ m ∈ (applyOp st op).warnings, m = updateMsg ∨ m = loginMsg := by
  have hadd : ∀ msg, (msg = updateMsg ∨ msg = loginMsg) →
      (st.add_warning msg).warnings.Nodup ∧
        ∀ m ∈ (st.add_warning msg).warnings, m = updateMsg ∨ m = loginMsg := by
    intro msg hmsg
    refine ⟨nodup_warningsAdd _ _ h.1, fun m hm => ?_⟩
    rcases (mem_warningsAdd _ _ _).mp hm with hmem | rfl
    · exact h.2 m hmem
    · exact hmsg
  have hconn : ∀ out : String,
      (connectStep st out).warnings.Nodup ∧
        ∀ m ∈ (connectStep st out).warnings, m = updateMsg ∨ m = loginMsg := by
    intro out
    rcases connectStep_cases st out with hc | hc | hc <;> rw [hc]
    · exact hadd updateMsg (Or.inl rfl)
    · exact hadd loginMsg (Or.inr rfl)
    · exact ⟨List.nodup_nil, by simp [NordVPNStatus.clear_warnings]⟩
  cases op with
  | connect out => exact hconn out
  | connect_to_country out => exact hconn out
  | connect_to_group out => exact hconn out
  | connect_to_city out => exact hconn out
  | disconnect out => exact hconn out
  | get_status out =>
    have hw : (applyOp st (Op.get_status out)).warnings = st.warnings :=
      update_warnings_unchanged st (pyStripStr out)
    rw [hw]
    exact h

theorem warnings_inv_foldl :
    ∀ (ops : List Op) (st : NordVPNStatus),
      st.warnings.Nodup ∧ (∀ m ∈ st.warnings, m = updateMsg ∨ m = loginMsg) →
      (ops.foldl applyOp st).warnings.Nodup ∧
        ∀ m ∈ (ops.foldl applyOp st).warnings, m = updateMsg ∨ m = loginMsg
  | [], _, h => h
  | op :: ops, st, h =>
    warnings_inv_foldl ops (applyOp st op) (warnings_inv_applyOp st op h)

/-- C9 (implicit invariant): through every sequence of public operations of
the `NordVPN` class, the warning set only ever contains the two fixed messages
(so it never holds more than two warnings — in particular never the raw output
text); and when an output contains both external warning phrases, only the
update warning is registered. -/
theorem c9_warning_set_invariant :
    (∀ ops : List Op,
      (∀ m ∈ (reachState ops).warnings, m = updateMsg ∨ m = loginMsg) ∧
      (reachState ops).warnings.length ≤ 2) ∧
    (∀ out : String, strContains UPDATE_WARNING out = true →
      strContains LOGIN_WARNING out = true →
      outputWarningMessage out = some updateMsg) := by
  constructor
  · intro ops
    have h := warnings_inv_foldl ops NordVPNStatus.init
      ⟨List.nodup_nil, by simp [NordVPNStatus.init]⟩
    refine ⟨h.2, ?_⟩
    have hsub : (reachState ops).warnings ⊆ [updateMsg, loginMsg] := by
      intro m hm
      rcases h.2 m hm with rfl | rfl <;> simp
    exact List.Subperm.length_le (List.Nodup.subperm h.1 hsub)
  · intro out h1 _
    unfold outputWarningMessage
    rw [if_pos h1]

set_option maxRecDepth 100000 in
/-- Witness for C9 at a connect call whose output carries both phrases. -/
theorem c9_witness :
    (reachState [Op.connect bothWarningsOutput]).warnings.length ≤ 2 ∧
    strContains UPDATE_WARNING bothWarningsOutput = true ∧
    strContains LOGIN_WARNING bothWarningsOutput = true ∧
    outputWarningMessage bothWarningsOutput = some updateMsg :=
  ⟨(c9_warning_set_invariant.1 [Op.connect bothWarningsOutput]).2, by decide, by decide,
    c9_warning_set_invariant.2 bothWarningsOutput (by decide) (by decide)⟩

theorem wordRunsFuel_succ_cons (n : Nat) (c : Char) (cs : List Char) :
    wordRunsFuel (n + 1) (c :: cs)
      = if isWordChar c then
          (c :: cs.takeWhile isWordChar) :: wordRunsFuel n (cs.dropWhile isWordChar)
        else wordRunsFuel n cs := rfl

theorem wordRunsFuel_congr :
    ∀ (n m : Nat) (s : List Char), s.length ≤ n → s.length ≤ m →
      wordRunsFuel n s = wordRunsFuel m s
  | n, m, [], _, _ => by cases n <;> cases m <;> rfl
  | 0, _, _ :: _, h, _ => by simp at h
  | _ + 1, 0, _ :: _, _, h => by simp at h
  | n + 1, m + 1, c :: cs, hn, hm => by
    have hn' : cs.length ≤ n := by simpa using hn
    have hm' : cs.length ≤ m := by simpa using hm
    rw [wordRunsFuel_succ_cons, wordRunsFuel_succ_cons]
    by_cases hc : isWordChar c = true
    · rw [if_pos hc, if_pos hc]
      have hd : (cs.dropWhile isWordChar).length ≤ cs.length :=
        List.Sublist.length_le (List.dropWhile_sublist _)
      rw [wordRunsFuel_congr n m (cs.dropWhile isWordChar)
        (le_trans hd hn') (le_trans hd hm')]
    · rw [if_neg hc, if_neg hc, wordRunsFuel_congr n m cs hn' hm']

theorem wordRuns_nil : wordRuns [] = [] := rfl

theorem wordRuns_cons_pos {c : Char} {cs : List Char} (h : isWordChar c = true) :
    wordRuns (c :: cs)
      = (c :: cs.takeWhile isWordChar) :: wordRuns (cs.dropWhile isWordChar) := by
  show wordRunsFuel (c :: cs).length (c :: cs) = _
  rw [show (c :: cs).length = cs.length + 1 from rfl, wordRunsFuel_succ_cons, if_pos h]
  unfold wordRuns
  rw [wordRunsFuel_congr cs.length (cs.dropWhile isWordChar).length (cs.dropWhile isWordChar)
    (List.Sublist.length_le (List.dropWhile_sublist _)) le_rfl]

theorem wordRuns_cons_neg {c : Char} {cs : List Char} (h : isWordChar c = false) :
    wordRuns (c :: cs) = wordRuns cs := by
  show wordRunsFuel (c :: cs).length (c :: cs) = _
  rw [show (c :: cs).length = cs.length + 1 from rfl, wordRunsFuel_succ_cons,
    if_neg (by simp [h])]
  rfl

/-- Soundness of the scanner: every produced run is a non-empty word-character
substring of the input, bounded on both sides by a non-word character or an
end of the input (maximality). -/
theorem wordRuns_sound :
    ∀ (n : Nat) (s : List Char), s.length ≤ n →
      ∀ w ∈ wordRuns s, w ≠ [] ∧ (∀ c ∈ w, isWordChar c = true) ∧
        ∃ pre post, s = pre ++ w ++ post ∧
          (∀ c, pre.getLast? = some c → isWordChar c = false) ∧
          (∀ c, post.head? = some c → isWordChar c = false)
  | _, [], _, w, hw => by rw [wordRuns_nil] at hw; exact absurd hw (List.not_mem_nil w)
  | 0, _ :: _, h, _, _ => by simp at h
  | n + 1, c :: cs, h, w, hw => by
    have hlen : cs.length ≤ n := by simpa using h
    by_cases hc : isWordChar c = true
    · rw [wordRuns_cons_pos hc] at hw
      rcases List.mem_cons.mp hw with rfl | hw2
      · refine ⟨by simp, ?_, [], cs.dropWhile isWordChar, ?_, ?_, ?_⟩
        · intro x hx
          rcases List.mem_cons.mp hx with rfl | hx2
          · exact hc
          · exact List.mem_takeWhile_imp hx2
        · simp [List.takeWhile_append_dropWhile]
        · intro x hx
          simp at hx
        · intro x hx
          have hnw := List.head?_dropWhile_not isWordChar cs
          rw [hx] at hnw
          exact hnw
      · have hdlen : (cs.dropWhile isWordChar).length ≤ n :=
          le_trans (List.Sublist.length_le (List.dropWhile_sublist _)) hlen
        obtain ⟨hne, hall, pre, post, hsplit, hpre, hpost⟩ :=
          wordRuns_sound n (cs.dropWhile isWordChar) hdlen w hw2
        refine ⟨hne, hall, (c :: cs.takeWhile isWordChar) ++ pre, post, ?_, ?_, hpost⟩
        · have hassoc : (c :: cs.takeWhile isWordChar) ++ pre ++ w ++ post
              = (c :: cs.takeWhile isWordChar) ++ (pre ++ w ++ post) := by simp
          rw [hassoc, ← hsplit]
          simp [List.takeWhile_append_dropWhile]
        · intro x hx
          cases hpre2 : pre.getLast? with
          | none =>
            exfalso
            have hpre_nil : pre = [] := List.getLast?_eq_none_iff.mp hpre2
            subst hpre_nil
            cases w with
            | nil => exact hne rfl
            | cons wh wt =>
              have hh : (cs.dropWhile isWordChar).head? = some wh := by
                rw [hsplit]; simp
              have hnw := List.head?_dropWhile_not isWordChar cs
              rw [hh] at hnw
              have hnw2 : isWordChar wh = false := hnw
              rw [hall wh (by simp)] at hnw2
              exact Bool.noConfusion hnw2
          | some y =>
            rw [List.getLast?_append, hpre2] at hx
            simp at hx
            subst hx
            exact hpre y hpre2
    · have hc' : isWordChar c = false := by
        cases hb : isWordChar c with
        | false => rfl
        | true => exact absurd hb hc
      rw [wordRuns_cons_neg hc'] at hw
      obtain ⟨hne, hall, pre, post, hsplit, hpre, hpost⟩ := wordRuns_sound n cs hlen w hw
      refine ⟨hne, hall, c :: pre, post, by simp [hsplit], ?_, hpost⟩
      intro x hx
      cases pre with
      | nil =>
        simp at hx
        rw [← hx]
        exact hc'
      | cons p ps =>
        rw [List.getLast?_cons_cons] at hx
        exact hpre x hx

theorem dropWhile_append_head_neg {p : Char → Bool} :
    ∀ (l t : List Char), (∀ c, t.head? = some c → p c = false) →
      (l ++ t).dropWhile p = l.dropWhile p ++ t
  | [], t, h => by
    cases t with
    | nil => rfl
    | cons d ds =>
      have hd : p d = false := h d rfl
      simp [List.dropWhile_cons, hd]
  | a :: l, t, h => by
    by_cases ha : p a = true
    · rw [List.cons_append, List.dropWhile_cons_of_pos ha, List.dropWhile_cons_of_pos ha]
      exact dropWhile_append_head_neg l t h
    · rw [List.cons_append, List.dropWhile_cons_of_neg ha, List.dropWhile_cons_of_neg ha,
        List.cons_append]

theorem takeWhile_head_neg {p : Char → Bool} (t : List Char)
    (h : ∀ c, t.head? = some c → p c = false) : t.takeWhile p = [] := by
  cases t with
  | nil => rfl
  | cons d ds =>
    have hd : p d = false := h d rfl
    simp [List.takeWhile_cons, hd]

/-- Completeness of the scanner: every non-empty word-character substring of
the input bounded on both sides by a non-word character or an end of the input
is one of the produced runs. -/
theorem wordRuns_complete :
    ∀ (n : Nat) (s pre w post : List Char), s.length ≤ n →
      s = pre ++ w ++ post → w ≠ [] → (∀ c ∈ w, isWordChar c = true) →
      (∀ c, pre.getLast? = some c → isWordChar c = false) →
      (∀ c, post.head? = some c → isWordChar c = false) →
      w ∈ wordRuns s
  | _, [], pre, w, post, _, hsplit, hne, _, _, _ => by
    have h2 := hsplit.symm
    simp only [List.append_eq_nil] at h2
    exact absurd h2.1.2 hne
  | 0, _ :: _, _, _, _, h, _, _, _, _, _ => by simp at h
  | n + 1, c :: cs, pre, w, post, h, hsplit, hne, hall, hpre, hpost => by
    have hlen : cs.length ≤ n := by simpa using h
    cases pre with
    | nil =>
      cases w with
      | nil => exact absurd rfl hne
      | cons wh wt =>
        rw [List.nil_append, List.cons_append] at hsplit
        injection hsplit with hc1 hcs
        subst hc1
        subst hcs
        have hcw : isWordChar c = true := hall c (by simp)
        rw [wordRuns_cons_pos hcw]
        have hwt : ∀ a ∈ wt, isWordChar a = true := fun a ha => hall a (by simp [ha])
        have htw : (wt ++ post).takeWhile isWordChar = wt := by
          rw [List.takeWhile_append_of_pos hwt, takeWhile_head_neg post hpost,
            List.append_nil]
        rw [htw]
        exact List.mem_cons_self _ _
    | cons p ps =>
      rw [List.cons_append, List.cons_append] at hsplit
      injection hsplit with hc1 hcs
      subst hc1
      by_cases hcw : isWordChar c = true
      · cases hgl : (c :: ps).getLast? with
        | none => simp at hgl
        | some x =>
          have hxw : isWordChar x = false := hpre x hgl
          obtain ⟨ys, hys⟩ := List.getLast?_eq_some_iff.mp hgl
          have hxpost : ∀ d, ([x] ++ w ++ post).head? = some d → isWordChar d = false := by
            intro d hd
            simp at hd
            rw [← hd]
            exact hxw
          have hccs : c :: cs = ys ++ ([x] ++ w ++ post) := by
            rw [hcs, ← List.append_assoc, ← List.append_assoc, ← hys]
            simp
          have hrest : (c :: cs).dropWhile isWordChar
              = ys.dropWhile isWordChar ++ ([x] ++ w ++ post) := by
            rw [hccs]
            exact dropWhile_append_head_neg ys ([x] ++ w ++ post) hxpost
          have hrest2 : cs.dropWhile isWordChar
              = ys.dropWhile isWordChar ++ ([x] ++ w ++ post) := by
            rw [← hrest, List.dropWhile_cons_of_pos hcw]
          have hrlen : (cs.dropWhile isWordChar).length ≤ n :=
            le_trans (List.Sublist.length_le (List.dropWhile_sublist _)) hlen
          have hsplit2 : cs.dropWhile isWordChar
              = (ys.dropWhile isWordChar ++ [x]) ++ w ++ post := by
            rw [hrest2]
            simp
          have hpre2 : ∀ d, (ys.dropWhile isWordChar ++ [x]).getLast? = some d →
              isWordChar d = false := by
            intro d hd
            rw [List.getLast?_concat] at hd
            injection hd with hd2
            rw [← hd2]
            exact hxw
          have hmem := wordRuns_complete n (cs.dropWhile isWordChar)
            (ys.dropWhile isWordChar ++ [x]) w post hrlen hsplit2 hne hall hpre2 hpost
          rw [wordRuns_cons_pos hcw]
          exact List.mem_cons_of_mem _ hmem
      · have hcf : isWordChar c = false := by
          cases hb : isWordChar c with
          | false => rfl
          | true => exact absurd hb hcw
        rw [wordRuns_cons_neg hcf]
        have hpre2 : ∀ d, ps.getLast? = some d → isWordChar d = false := by
          intro d hd
          cases ps with
          | nil => simp at hd
          | cons q qs =>
            exact hpre d (by rw [List.getLast?_cons_cons]; exact hd)
        exact wordRuns_complete n cs ps w post hlen hcs hne hall hpre2 hpost

/-- C10 (implicit): `get_countries`, `get_groups` and `get_cities` share this
pure pipeline (`_parse_words` then `list.sort()`); on any output its result is
sorted ascending and its elements are exactly the maximal word-character
substrings of length at least two with every underscore replaced by a space;
empty output yields the empty list. -/
theorem c10_parsed_word_lists (raw : String) :
    List.Sorted pyLe (countries_of_output raw) ∧
    (∀ x, x ∈ countries_of_output raw ↔
      ∃ pre run post, raw.data = pre ++ run ++ post ∧ 2 ≤ run.length ∧
        (∀ c ∈ run, isWordChar c = true) ∧
        (∀ c, pre.getLast? = some c → isWordChar c = false) ∧
        (∀ c, post.head? = some c → isWordChar c = false) ∧
        x = (run.map (fun c => if c = '_' then ' ' else c)).asString) ∧
    countries_of_output "" = [] := by
  refine ⟨List.sorted_insertionSort _ _, ?_, rfl⟩
  intro x
  have hperm := List.perm_insertionSort pyLe (parse_words raw)
  unfold countries_of_output
  rw [hperm.mem_iff]
  unfold parse_words
  rw [List.mem_map]
  constructor
  · rintro ⟨run, hrun, rfl⟩
    rw [List.mem_filter] at hrun
    obtain ⟨hmem, hlen2⟩ := hrun
    obtain ⟨_, hall, pre, post, hsplit, hpre, hpost⟩ :=
      wordRuns_sound raw.data.length raw.data le_rfl run hmem
    exact ⟨pre, run, post, hsplit, by simpa using hlen2, hall, hpre, hpost, rfl⟩
  · rintro ⟨pre, run, post, hsplit, hlen2, hall, hpre, hpost, rfl⟩
    refine ⟨run, ?_, rfl⟩
    rw [List.mem_filter]
    have hne : run ≠ [] := by
      intro hrun
      rw [hrun] at hlen2
      simp at hlen2
    exact ⟨wordRuns_complete raw.data.length raw.data pre run post le_rfl hsplit
      hne hall hpre hpost, by simpa using hlen2⟩

set_option maxRecDepth 100000 in
/-- Witness for C10 at a concrete output containing an underscore word. -/
theorem c10_witness :
    List.Sorted pyLe (countries_of_output "Albania France_Albania") ∧
    (∃ pre run post, ("Albania France_Albania" : String).data = pre ++ run ++ post ∧
      2 ≤ run.length ∧ (∀ c ∈ run, isWordChar c = true) ∧
      (∀ c, pre.getLast? = some c → isWordChar c = false) ∧
      (∀ c, post.head? = some c → isWordChar c = false) ∧
      ("France Albania" : String)
        = (run.map (fun c => if c = '_' then ' ' else c)).asString) ∧
    countries_of_output "" = [] := by
  have h := c10_parsed_word_lists "Albania France_Albania"
  exact ⟨h.1, (h.2.1 "France Albania").mp (by decide), (c10_parsed_word_lists "").2.2⟩
